import Mathlib

/-!
Shallow embedding of `master_state.go` from the mesos_exporter repository:
the range codec, attribute sanitisation, the settable counter metric types,
the master/version/metric collectors and the signed-token auth manager,
together with theorems settling the specification claims C1 to C10.

Go machine integers (`uint64`) are modelled as `Nat` with explicit `% 2 ^ 64`
where the code can wrap; `float64` values that the claims never round are
modelled as `Rat`; Go functions returning `(T, error)` are modelled as
`Option`/pairs carrying the error; channel emission is modelled by returning
the list of sent values.
-/

namespace MesosExporter

/-! ### Byte-slice helpers (models of the `bytes` and `strconv` calls) -/

/-- Model of trimming every leading and trailing character satisfying `p`
(the behaviour of `bytes.Trim` / `bytes.TrimSpace` on both ends). -/
def trimBoth (p : Char → Bool) (cs : List Char) : List Char :=
  ((cs.dropWhile p).reverse.dropWhile p).reverse

/-- Model of `bytes.Trim(data, cutset)`: strip characters of `cut` from both ends. -/
def trimCutset (cut : List Char) (cs : List Char) : List Char :=
  trimBoth (fun c => cut.contains c) cs

/-- Model of Go `unicode.IsSpace` restricted to the Latin-1 range
(the only range the claims exercise; the inputs here are ASCII). -/
def goIsSpace (c : Char) : Bool :=
  c = ' ' || c = '\t' || c = '\n' || c = '\x0b' || c = '\x0c' || c = '\r' ||
  c = '\u0085' || c = ' '

/-- Model of `bytes.TrimSpace`. -/
def trimSpaceGo (cs : List Char) : List Char :=
  trimBoth goIsSpace cs

/-- Model of `bytes.Split(data, []byte(","))` (on nonempty input it yields the
comma-separated fields, keeping empty fields). -/
def splitOnComma : List Char → List (List Char)
  | [] => [[]]
  | c :: cs =>
    match splitOnComma cs with
    | [] => [[c]]
    | s :: ss => if c = ',' then [] :: s :: ss else (c :: s) :: ss

/-- Model of `bytes.SplitN(r, []byte("-"), 2)`: `none` when no `-` occurs
(Go then returns a single field, which the caller rejects), otherwise the
parts before and after the first `-`. -/
def splitNDash : List Char → Option (List Char × List Char)
  | [] => none
  | c :: cs =>
    if c = '-' then some ([], cs)
    else (splitNDash cs).map fun p => (c :: p.1, p.2)

/-- Model of `strconv.ParseUint(s, 10, 64)`: nonempty, all ASCII digits,
value below `2 ^ 64`; `none` models the returned error. -/
def parseUint64 (cs : List Char) : Option Nat :=
  if cs = [] then none
  else if cs.all Char.isDigit then
    let n := cs.foldl (fun a c => a * 10 + (c.toNat - 48)) 0
    if n < 2 ^ 64 then some n else none
  else none

/-! ### Range codec (`type ranges [][2]uint64`) -/

/-- Model of `type ranges [][2]uint64`; both bounds are below `2 ^ 64`
whenever they come from `parseUint64`. -/
abbrev ranges := List (Nat × Nat)

/-- Uint64 subtraction `a - b` with wraparound, valid for `a b ≤ 2 ^ 64`. -/
def sub64 (a b : Nat) : Nat := (a + (2 ^ 64 - b)) % 2 ^ 64

/-- Uint64 addition `a + b` with wraparound. -/
def add64 (a b : Nat) : Nat := (a + b) % 2 ^ 64

/-- Model of the loop body of `ranges.UnmarshalJSON`: each well-formed
segment is appended to the receiver before the next segment is examined, so
an error returned for a later segment leaves the earlier appends in place.
The `Option String` is the returned error (`"bad range"` for a missing
separator, `"invalid syntax"` for a `strconv` failure). -/
def unmarshalSegs : List (List Char) → ranges → ranges × Option String
  | [], acc => (acc, none)
  | seg :: rest, acc =>
    match splitNDash seg with
    | none => (acc, some "bad range")
    | some ab =>
      match parseUint64 (trimSpaceGo ab.1) with
      | none => (acc, some "invalid syntax")
      | some lo =>
        match parseUint64 (trimSpaceGo ab.2) with
        | none => (acc, some "invalid syntax")
        | some hi => unmarshalSegs rest (acc ++ [(lo, hi)])

/-- Model of `ranges.UnmarshalJSON`: trim `[`, `]` and `"` from both ends;
an empty remainder decodes to no change; otherwise process the
comma-separated segments in order, mutating the receiver `rs` as Go does. -/
def unmarshalRanges (data : String) (rs : ranges) : ranges × Option String :=
  let trimmed := trimCutset ['[', ']', '"'] data.data
  if trimmed = [] then (rs, none)
  else unmarshalSegs (splitOnComma trimmed) rs

/-- One segment's parse, combining `splitNDash` and the two `parseUint64`
calls exactly as the loop body does. -/
def parseSegment (seg : List Char) : Option (Nat × Nat) :=
  match splitNDash seg with
  | none => none
  | some ab =>
    match parseUint64 (trimSpaceGo ab.1), parseUint64 (trimSpaceGo ab.2) with
    | some lo, some hi => some (lo, hi)
    | _, _ => none

/-- The segment list `ranges.UnmarshalJSON` iterates over (empty when the
trimmed input is empty). -/
def rangeSegments (data : String) : List (List Char) :=
  let trimmed := trimCutset ['[', ']', '"'] data.data
  if trimmed = [] then [] else splitOnComma trimmed

/-- Model of `ranges.size`: `sz += 1 + (rs[i][1] - rs[i][0])` in uint64
arithmetic. -/
def ranges.size (rs : ranges) : Nat :=
  rs.foldl (fun sz r => add64 sz (add64 1 (sub64 r.2 r.1))) 0

/-! ### Label sanitisation and attribute handling -/

/-- Model of the Go regexp word class `[:word:]`, that is `[0-9A-Za-z_]`. -/
def isWordCharGo (c : Char) : Bool := c.isAlpha || c.isDigit || c = '_'

/-- Character class of the regexp `^[-[:word:]/.]*$` used by
`attributeString`: hyphen, word characters, path separator and dot. -/
def attrCharOk (c : Char) : Bool := c = '-' || isWordCharGo c || c = '/' || c = '.'

/-- Model of `strings.Trim(string(attribute), quote)`: strip double quotes
from both ends. -/
def trimQuotes (s : String) : String := (trimCutset ['"'] s.data).asString

/-- Model of `attributeString`: trim wrapping quotes, keep the value iff it
matches `^[-[:word:]/.]*$`; `none` models the returned `errDropAttribute`. -/
def attributeString (attr : String) : Option String :=
  let value := trimQuotes attr
  if value.data.all attrCharOk then some value else none

/-- Charset stated by the C7 specification sentence (word characters, path
separator and dot), written from the spec for comparison with the code's
`attrCharOk`. -/
def specAttrCharset (c : Char) : Bool := isWordCharGo c || c = '/' || c = '.'

/-- Model of `normaliseLabel` (regexp `(^[^a-zA-Z_])|([^a-zA-Z0-9_])`
replaced by `_`): the first character is kept only when it is a letter or
underscore, later characters only when alphanumeric or underscore. -/
def normaliseLabel (label : String) : String :=
  match label.data with
  | [] => ""
  | c :: cs =>
    ((if c.isAlpha || c = '_' then c else '_') ::
      cs.map fun d => if d.isAlphanum || d = '_' then d else '_').asString

/-- Model of `normaliseLabelList`. -/
def normaliseLabelList (labelList : List String) : List String :=
  labelList.map normaliseLabel

/-- Model of `stringInSlice`. -/
def stringInSlice (s : String) (slice : List String) : Bool :=
  slice.any fun elem => s = elem

/-- Model of a `prometheus.Labels` map as an association list with
insert-or-replace assignment. -/
def mapSet : List (String × String) → String → String → List (String × String)
  | [], k, v => [(k, v)]
  | (k0, v0) :: rest, k, v =>
    if k0 = k then (k, v) :: rest else (k0, v0) :: mapSet rest k v

/-- Go map lookup; a missing key yields the zero value `""`. -/
def mapGet : List (String × String) → String → String
  | [], _ => ""
  | p :: rest, k => if p.1 = k then p.2 else mapGet rest k

/-- Model of `getLabelValuesFromMap`: one value per ordered key. -/
def getLabelValuesFromMap (labels : List (String × String))
    (orderedLabelKeys : List String) : List String :=
  orderedLabelKeys.map fun label => mapGet labels label

/-! ### State snapshot model -/

/-- Model of `resources` (cpu/mem/disk as exact rationals, ports as a range
set). -/
structure resources where
  cpus : Rat
  disk : Rat
  mem : Rat
  ports : ranges
deriving DecidableEq, Repr

/-- Model of `slave`; attribute values hold the raw JSON text
(`json.RawMessage`), and the list order stands in for the Go map iteration
order, which no claim depends on. -/
structure slave where
  pid : String
  hostname : String
  id : String
  port : Nat
  used : resources
  unreserved : resources
  total : resources
  attributes : List (String × String)
deriving DecidableEq, Repr

/-- Model of `state`; the `frameworks` field is decoded by the code but
unused by every collector treated here. -/
structure state where
  slaves : List slave
deriving DecidableEq, Repr

/-! ### Metric samples and the settable counter types -/

/-- Model of a fully-instantiated constant metric
(`prometheus.MustNewConstMetric`): descriptor name, label values, value. -/
structure Sample where
  descName : String
  labelValues : List String
  value : Rat
deriving DecidableEq, Repr

/-- Model of `prometheus.BuildFQName`: join the nonempty parts with `_`. -/
def buildFQName (ns sub name : String) : String :=
  if name = "" then ""
  else if ns ≠ "" ∧ sub ≠ "" then ns ++ "_" ++ sub ++ "_" ++ name
  else if ns ≠ "" then ns ++ "_" ++ name
  else if sub ≠ "" then sub ++ "_" ++ name
  else name

/-- Model of `settableCounterVec`: one fixed descriptor and a buffer of
fully-instantiated samples. -/
structure settableCounterVec where
  descName : String
  labelNames : List String
  values : List Sample
deriving DecidableEq, Repr

/-- Model of `counter`: a fresh `settableCounterVec` with a `mesos_…`
fully-qualified name and an empty buffer. -/
def counter (subsystem name help : String) (labels : List String) : settableCounterVec :=
  { descName := buildFQName "mesos" subsystem name, labelNames := labels, values := [] }

/-- Model of `settableCounterVec.Set`: append one constant metric to the
buffer. -/
def settableCounterVec.set (c : settableCounterVec) (value : Rat)
    (labelValues : List String) : settableCounterVec :=
  { c with values := c.values ++
      [{ descName := c.descName, labelValues := labelValues, value := value }] }

/-- Model of `settableCounterVec.Collect`: emit every buffered sample on the
channel and clear the buffer (`c.values = nil`). -/
def settableCounterVec.collect (c : settableCounterVec) :
    List Sample × settableCounterVec :=
  (c.values, { c with values := [] })

/-- A cycle's worth of `Set` calls on a `settableCounterVec`, in order. -/
def applySets (sets : List (Rat × List String)) (c : settableCounterVec) :
    settableCounterVec :=
  sets.foldl (fun c s => c.set s.1 s.2) c

/-- Model of `settableCounter`: one descriptor and a single stored metric;
`none` models the nil `prometheus.Metric` of the zero value. -/
structure settableCounter where
  descName : String
  value : Option Sample
deriving DecidableEq, Repr

/-- Model of `newSettableCounter`: descriptor built, value left nil. -/
def newSettableCounter (subsystem name help : String) : settableCounter :=
  { descName := buildFQName "mesos" subsystem name, value := none }

/-- Model of `settableCounter.Collect`: warn when the stored value is nil,
then unconditionally send the (possibly nil) value on the channel; the
stored value is NOT cleared. The first component is the warning log, the
second the channel contents, the third the collector afterwards. -/
def settableCounter.collect (c : settableCounter) :
    List String × List (Option Sample) × settableCounter :=
  match c.value with
  | none => (["NIL value"], [none], c)
  | some v => ([], [some v], c)

/-- Model of `settableCounter.Set`. -/
def settableCounter.set (c : settableCounter) (value : Rat) : settableCounter :=
  { c with value := some { descName := c.descName, labelValues := [], value := value } }

/-! ### Gauge vectors, the attribute translator, the master and version collectors -/

/-- Model of `prometheus.GaugeVec`: persistent children keyed by label
values; children survive across scrapes until deleted (nothing here deletes
them). -/
structure GaugeVec where
  descName : String
  labelNames : List String
  children : List (List String × Rat)
deriving DecidableEq, Repr

/-- Insert-or-replace for gauge children. -/
def upsertChild : List (List String × Rat) → List String → Rat → List (List String × Rat)
  | [], lvs, v => [(lvs, v)]
  | (l0, v0) :: rest, lvs, v =>
    if l0 = lvs then (lvs, v) :: rest else (l0, v0) :: upsertChild rest lvs v

/-- Model of `WithLabelValues(...).Set(v)`: create or update the child. -/
def GaugeVec.withSet (g : GaugeVec) (labelValues : List String) (v : Rat) : GaugeVec :=
  { g with children := upsertChild g.children labelValues v }

/-- Model of `GaugeVec.Collect`: emit one sample per live child; the
children persist unchanged. -/
def GaugeVec.collect (g : GaugeVec) : List Sample :=
  g.children.map fun child =>
    { descName := g.descName, labelValues := child.1, value := child.2 }

/-- Model of the `gauge` helper. -/
def gauge (subsystem name help : String) (labels : List String) : GaugeVec :=
  { descName := buildFQName "mesos" subsystem name, labelNames := labels, children := [] }

/-- The fixed base labels of every slave metric. -/
def baseLabels : List String := ["slave", "hostname", "port", "id"]

/-- Full label-name list of the attribute series
(`slaveAttributesLabelsExport`): base labels then the normalised allowlist. -/
def slaveAttributesLabelsExport (normalisedAttributeLabels : List String) : List String :=
  baseLabels ++ normalisedAttributeLabels

/-- Model of the per-slave label map built by the attribute translator:
`slave` is preset to the node's pid, every configured label is preset to the
empty string, and each attribute whose normalised key is configured and
whose value passes `attributeString` overwrites its label. -/
def slaveAttributesExport (normalisedAttributeLabels : List String) (s : slave) :
    List (String × String) :=
  let m0 := mapSet [] "slave" s.pid
  let m1 := normalisedAttributeLabels.foldl (fun m label => mapSet m label "") m0
  s.attributes.foldl (fun m kv =>
    let normalisedLabel := normaliseLabel kv.1
    if stringInSlice normalisedLabel normalisedAttributeLabels then
      match attributeString kv.2 with
      | some attr => mapSet m normalisedLabel attr
      | none => m
    else m) m1

/-- The label values passed to `Set` for one slave by the attribute
translator. -/
def slaveAttributeLabelValues (slaveAttributeLabels : List String) (s : slave) :
    List String :=
  let normalised := normaliseLabelList slaveAttributeLabels
  getLabelValuesFromMap (slaveAttributesExport normalised s)
    (slaveAttributesLabelsExport normalised)

/-- The label values attached to every per-slave gauge sample
(`s.PID, s.Hostname, fmt.Sprintf("%d", s.Port), s.Id`). -/
def slaveLabelValues (s : slave) : List String :=
  [s.pid, s.hostname, toString s.port, s.id]

/-- The twelve per-slave gauge series of `newMasterStateCollector`:
descriptor name and the value taken from one slave (memory and disk are
exported multiplied by 1024; port counts are range-set cardinalities cast to
float). -/
def masterMetricSetters : List (String × (slave → Rat)) :=
  [("mesos_slave_cpus", fun s => s.total.cpus),
   ("mesos_slave_cpus_used", fun s => s.used.cpus),
   ("mesos_slave_cpus_unreserved", fun s => s.unreserved.cpus),
   ("mesos_slave_mem_bytes", fun s => s.total.mem * 1024),
   ("mesos_slave_mem_used_bytes", fun s => s.used.mem * 1024),
   ("mesos_slave_mem_unreserved_bytes", fun s => s.unreserved.mem * 1024),
   ("mesos_slave_disk_bytes", fun s => s.total.disk * 1024),
   ("mesos_slave_disk_used_bytes", fun s => s.used.disk * 1024),
   ("mesos_slave_disk_unreserved_bytes", fun s => s.unreserved.disk * 1024),
   ("mesos_slave_ports", fun s => (ranges.size s.total.ports : Rat)),
   ("mesos_slave_ports_used", fun s => (ranges.size s.used.ports : Rat)),
   ("mesos_slave_ports_unreserved", fun s => (ranges.size s.unreserved.ports : Rat))]

/-- One gauge entry's fill function: per slave, set the gauge child for that
slave's labels to the extracted value. -/
def applySlaveSetter (f : slave → Rat) (st : state) (g : GaugeVec) : GaugeVec :=
  st.slaves.foldl (fun g s => g.withSet (slaveLabelValues s) (f s)) g

/-- Model of the attribute entry's fill function (the closure added to the
metrics map when the allowlist is nonempty): one `Set(1, …)` per slave. -/
def attributeTranslate (slaveAttributeLabels : List String) (st : state)
    (c : settableCounterVec) : settableCounterVec :=
  st.slaves.foldl (fun c s => c.set 1 (slaveAttributeLabelValues slaveAttributeLabels s)) c

/-- The mutable state of a `masterCollector`: its twelve gauge vectors
(paired positionally with `masterMetricSetters`) and, when an attribute
allowlist is configured, the attribute `settableCounterVec`. -/
structure masterCollectorState where
  gauges : List GaugeVec
  attrCounter : Option settableCounterVec
  allowlist : List String
deriving DecidableEq, Repr

/-- The collector returned by `newMasterStateCollector`: fresh gauges, and
the attribute counter exactly when the allowlist is nonempty. -/
def newMasterState (slaveAttributeLabels : List String) : masterCollectorState :=
  { gauges := masterMetricSetters.map fun p =>
      { descName := p.1, labelNames := baseLabels, children := [] },
    attrCounter :=
      if slaveAttributeLabels = [] then none
      else some (counter "slave" "attributes" "Attributes assigned to slaves"
        (slaveAttributesLabelsExport (normaliseLabelList slaveAttributeLabels))),
    allowlist := slaveAttributeLabels }

/-- Model of `masterCollector.Collect`: the fetch result is ignored — on a
failed fetch the zero-value `state` (no slaves) is used — then every entry
of the metrics map runs its fill function and collects its collector. The
iteration order of the Go map is immaterial to the claims; the model fixes
the gauge entries first. -/
def masterCollect (fetch : Option state) (ms : masterCollectorState) :
    List Sample × masterCollectorState :=
  let st := fetch.getD { slaves := [] }
  let folded := ((masterMetricSetters.map fun p => p.2).zip ms.gauges).foldl
    (fun acc p =>
      let g1 := applySlaveSetter p.1 st p.2
      (acc.1 ++ g1.collect, acc.2 ++ [g1])) ([], [])
  match ms.attrCounter with
  | none => (folded.1, { ms with gauges := folded.2 })
  | some c =>
    let drained := (attributeTranslate ms.allowlist st c).collect
    (folded.1 ++ drained.1,
     { ms with gauges := folded.2, attrCounter := some drained.2 })

/-- Model of `versionFields`. -/
structure versionFields where
  buildDate : String
  buildTime : Rat
  gitSHA : String
  gitTag : String
  version : String
deriving DecidableEq, Repr

/-- Left-pad with zeros to six digits. -/
def padSixZeros (s : String) : String :=
  (List.replicate (6 - s.length) '0').asString ++ s

/-- Model of `fmt.Sprintf("%f", x)` over the rational model of `float64`:
six fractional digits, rounding half away from zero (the exact tie behaviour
of the binary float is immaterial here — no claim inspects this label). -/
def formatFloat6 (q : Rat) : String :=
  let sign := if q < 0 then "-" else ""
  let scaled : Int := ⌊|q| * 1000000 + 1 / 2⌋
  sign ++ toString (scaled / 1000000) ++ "." ++ padSixZeros (toString (scaled % 1000000))

/-- Model of `versionCollector.Collect`: only on a successful fetch set the
gauge child (value 1, build metadata as labels) and collect it; a failed
fetch (`none`) emits nothing. -/
def versionCollect (fetch : Option versionFields) (g : GaugeVec) :
    List Sample × GaugeVec :=
  match fetch with
  | none => ([], g)
  | some vf =>
    let g1 := g.withSet
      [vf.buildDate, formatFloat6 vf.buildTime, vf.gitSHA, vf.gitTag, vf.version] 1
    (g1.collect, g1)

/-- Model of `groupedCollector.Collect` for the master and version members:
each member performs its own fetch and contributes its own samples, in
registration order. -/
def groupedMVCollect (fetchM : Option state) (fetchV : Option versionFields)
    (ms : masterCollectorState) (gv : GaugeVec) :
    List Sample × masterCollectorState × GaugeVec :=
  let a := masterCollect fetchM ms
  let b := versionCollect fetchV gv
  (a.1 ++ b.1, a.2, b.2)

/-! ### The numeric-map (snapshot) collector -/

/-- Model of `metricMap`: the flat name→float snapshot as an association
list (a failed fetch leaves the nil map, here `[]`). -/
abbrev metricMap := List (String × Rat)

/-- Go map lookup on the snapshot, `none` for an absent key. -/
def metricLookup (m : metricMap) (key : String) : Option Rat :=
  (m.find? fun p => p.1 = key).map fun p => p.2

/-- Modelled from the spec: the extraction functions of the numeric-map
collector live outside `src` (only their driver `metricCollector.Collect`
and the `LogErrNotFoundInMap` constant are present); per the spec each
configured function reads one source key from the flat name→float snapshot,
errors when the key is absent, and otherwise fills its collector with the
value found. -/
structure extractFn where
  sourceKey : String
  descName : String
deriving DecidableEq, Repr

/-- A single extraction function's run: `none` models the
`LogErrNotFoundInMap` error for an absent source key. -/
def runExtractFn (m : metricMap) (f : extractFn) : Option Sample :=
  (metricLookup m f.sourceKey).map fun v =>
    { descName := f.descName, labelValues := [], value := v }

/-- Model of the loop of `metricCollector.Collect`. On an extraction error
the code makes a fresh one-element channel and immediately receives from it
with no sender (`"metric": <-ch`): that receive blocks forever, so the
logging, the error-counter increment below it and all later iterations are
never reached. The Boolean records that the collect blocked; the sample
list holds what was emitted before that point. -/
def metricCollectGo : List extractFn → metricMap → List Sample × Bool
  | [], _ => ([], false)
  | f :: rest, m =>
    match runExtractFn m f with
    | none => ([], true)
    | some smp =>
      let r := metricCollectGo rest m
      (smp :: r.1, r.2)

/-- Model of `metricCollector.Collect`: the fetch result is ignored (a
failed fetch leaves the nil snapshot map), then the loop runs. -/
def metricCollect (fetch : Option metricMap) (fns : List extractFn) :
    List Sample × Bool :=
  metricCollectGo fns (fetch.getD [])

/-! ### Auth manager (`signingToken` and `authToken`) -/

/-- Model of the `authInfo` fields the token lifecycle touches (the basic
auth and TLS fields do not enter these claims). -/
structure authInfo where
  username : String
  loginURL : String
  token : String
  tokenExpire : Int
deriving DecidableEq, Repr

/-- Model of `signingToken`: the stored expiry is advanced to `now + 1h`
BEFORE the assertion is signed (a key-parse failure only logs and falls
through); `signOk = none` models a signing failure, which returns the empty
token with the expiry already advanced. -/
def signingToken (now : Int) (signOk : Option String) (st : authInfo) :
    String × authInfo :=
  let st1 := { st with tokenExpire := now + 3600 }
  match signOk with
  | none => ("", st1)
  | some tokenString => (tokenString, st1)

/-- Model of `authToken`. A refresh runs only when `now` exceeds the stored
expiry. `post` abstracts the chain after the signing step — request
construction, the POST to the login endpoint and the response decode:
`none` models any of those failing (the function then returns `""` and
leaves the stored token untouched), `some tok` the decoded opaque token,
which is stored as `token=<tok>` and returned. -/
def authToken (now : Int) (signOk : Option String) (post : Option String)
    (st : authInfo) : String × authInfo :=
  if now > st.tokenExpire then
    let signed := signingToken now signOk st
    match post with
    | none => ("", signed.2)
    | some tok =>
      let st2 := { signed.2 with token := "token=" ++ tok }
      (st2.token, st2)
  else (st.token, st)

/-! ### Concrete fixtures used by counterexamples and witnesses -/

/-- A concrete slave for the C2 scenario. -/
def exampleSlave : slave :=
  { pid := "slave(1)@10.0.0.1:5051", hostname := "h1", id := "S1", port := 5051,
    used := { cpus := 3 / 2, disk := 1, mem := 1, ports := [] },
    unreserved := { cpus := 1, disk := 1, mem := 1, ports := [] },
    total := { cpus := 4, disk := 2, mem := 2, ports := [(31000, 32000)] },
    attributes := [] }

/-- A concrete slave for the C8 witness: it has a `zone` attribute but no
`rack` attribute. -/
def witnessSlave : slave :=
  { pid := "p", hostname := "h", id := "i", port := 1,
    used := { cpus := 0, disk := 0, mem := 0, ports := [] },
    unreserved := { cpus := 0, disk := 0, mem := 0, ports := [] },
    total := { cpus := 0, disk := 0, mem := 0, ports := [] },
    attributes := [("zone", "\"x\"")] }

/-- A concrete expired auth state for the C9 witness. -/
def expiredAuth : authInfo :=
  { username := "u", loginURL := "l", token := "token=old", tokenExpire := 0 }

/-! ### Helper lemmas -/

lemma unmarshalSegs_fst (segs : List (List Char)) (acc : ranges) :
    (unmarshalSegs segs acc).1 =
      acc ++ (segs.takeWhile fun s => (parseSegment s).isSome).filterMap parseSegment := by
  induction segs generalizing acc with
  | nil => simp [unmarshalSegs]
  | cons seg rest ih =>
    simp only [unmarshalSegs, parseSegment]
    cases hd : splitNDash seg with
    | none => simp [List.takeWhile, hd]
    | some ab =>
      cases hlo : parseUint64 (trimSpaceGo ab.1) with
      | none => simp [List.takeWhile, hd, hlo]
      | some lo =>
        cases hhi : parseUint64 (trimSpaceGo ab.2) with
        | none => simp [List.takeWhile, hd, hlo, hhi]
        | some hi =>
          simp only [hlo, hhi]
          rw [ih]
          simp [List.takeWhile, hd, hlo, hhi, parseSegment]

lemma unmarshalSegs_snd (segs : List (List Char)) (acc : ranges) :
    (unmarshalSegs segs acc).2 = none ↔
      ∀ s ∈ segs, (parseSegment s).isSome = true := by
  induction segs generalizing acc with
  | nil => simp [unmarshalSegs]
  | cons seg rest ih =>
    simp only [unmarshalSegs, parseSegment]
    cases hd : splitNDash seg with
    | none => simp [hd, parseSegment]
    | some ab =>
      cases hlo : parseUint64 (trimSpaceGo ab.1) with
      | none => simp [hd, hlo, parseSegment]
      | some lo =>
        cases hhi : parseUint64 (trimSpaceGo ab.2) with
        | none => simp [hd, hlo, parseSegment, hhi]
        | some hi =>
          simp only [hlo, hhi]
          rw [ih]
          simp [hd, hlo, hhi, parseSegment]

lemma size_foldl_exact (rs : ranges) (sz : Nat)
    (hb : ∀ r ∈ rs, r.1 ≤ r.2 ∧ r.2 < 2 ^ 64)
    (hs : sz + (rs.map fun r => r.2 - r.1 + 1).sum < 2 ^ 64) :
    rs.foldl (fun sz r => add64 sz (add64 1 (sub64 r.2 r.1))) sz =
      sz + (rs.map fun r => r.2 - r.1 + 1).sum := by
  induction rs generalizing sz with
  | nil => simp
  | cons a t ih =>
    have ha := hb a (List.mem_cons_self a t)
    have hsum : sz + (a.2 - a.1 + 1) + (t.map fun r => r.2 - r.1 + 1).sum < 2 ^ 64 := by
      simp only [List.map_cons, List.sum_cons] at hs
      omega
    have h1 : sub64 a.2 a.1 = a.2 - a.1 := by
      unfold sub64
      have : a.2 + (2 ^ 64 - a.1) = (a.2 - a.1) + 2 ^ 64 := by omega
      rw [this, Nat.add_mod_right, Nat.mod_eq_of_lt (by omega)]
    have h2 : add64 1 (a.2 - a.1) = a.2 - a.1 + 1 := by
      unfold add64
      rw [Nat.mod_eq_of_lt (by omega)]
      omega
    have h3 : add64 sz (a.2 - a.1 + 1) = sz + (a.2 - a.1 + 1) := by
      unfold add64
      rw [Nat.mod_eq_of_lt (by omega)]
    simp only [List.foldl_cons, h1, h2, h3]
    rw [ih (sz + (a.2 - a.1 + 1)) (fun r hr => hb r (List.mem_cons_of_mem a hr)) (by omega)]
    simp only [List.map_cons, List.sum_cons]
    omega

/-! ### Claim theorems -/

/-- C3 counterexample: on input `"1-2,x"` the decode returns an error, yet
the target range set is not left unchanged — the well-formed segment `1-2`
preceding the malformed `x` has already been appended. -/
theorem c3_partial_result_counterexample :
    unmarshalRanges "1-2,x" [] = ([(1, 2)], some "bad range") ∧
      ([(1, 2)] : ranges) ≠ ([] : ranges) := by
  constructor
  · decide
  · decide

/-- C3 (amended): a malformed segment (missing separator or non-numeric
bound) fails the decode with a format error, but the result is partial: the
target ends up as its old value extended by exactly the segments parsed
before the first malformed one, so well-formed segments preceding the
malformed one are retained in the receiver. -/
theorem c3_decode_error_appends_parsed_segments (data : String) (rs : ranges) :
    (unmarshalRanges data rs).1 =
      rs ++ ((rangeSegments data).takeWhile
        (fun s => (parseSegment s).isSome)).filterMap parseSegment ∧
    ((unmarshalRanges data rs).2 = none ↔
      ∀ s ∈ rangeSegments data, (parseSegment s).isSome = true) := by
  unfold unmarshalRanges rangeSegments
  by_cases h : trimCutset ['[', ']', '"'] data.data = []
  · simp [h]
  · simp only [h, if_neg h, if_false]
    exact ⟨unmarshalSegs_fst _ _, unmarshalSegs_snd _ _⟩

/-- C6: the size of a decoded range set is the inclusive-bounds sum
`(hi - lo + 1)` over its intervals in uint64 arithmetic: exact whenever
every interval has `lo ≤ hi` and the sum does not wrap; the valid example
`"0-100,200-200"` decodes and sizes to `102`, and the reversed interval
`"5-3"` sizes to the pinned wraparound value `2 ^ 64 - 1` of the same
inclusive-subtraction formula. -/
theorem c6_size_is_inclusive_sum (rs : ranges)
    (hb : ∀ r ∈ rs, r.1 ≤ r.2 ∧ r.2 < 2 ^ 64)
    (hs : (rs.map fun r => r.2 - r.1 + 1).sum < 2 ^ 64) :
    ranges.size rs = (rs.map fun r => r.2 - r.1 + 1).sum ∧
    unmarshalRanges "0-100,200-200" [] = ([(0, 100), (200, 200)], none) ∧
    ranges.size [(0, 100), (200, 200)] = 102 ∧
    unmarshalRanges "5-3" [] = ([(5, 3)], none) ∧
    ranges.size [(5, 3)] = 18446744073709551615 := by
  refine ⟨?_, by decide, by decide, by decide, by decide⟩
  have := size_foldl_exact rs 0 hb (by omega)
  unfold ranges.size
  omega

/-- C6 witness: the theorem applied at the concrete range set decoded from
`"0-100,200-200"`, whose bounds and total size satisfy the hypotheses. -/
theorem c6_size_is_inclusive_sum_witness :
    (∀ r ∈ ([(0, 100), (200, 200)] : ranges), r.1 ≤ r.2 ∧ r.2 < 2 ^ 64) ∧
    ((([(0, 100), (200, 200)] : ranges).map fun r => r.2 - r.1 + 1).sum < 2 ^ 64) ∧
    ranges.size [(0, 100), (200, 200)] =
      (([(0, 100), (200, 200)] : ranges).map fun r => r.2 - r.1 + 1).sum :=
  ⟨by decide, by decide,
    (c6_size_is_inclusive_sum [(0, 100), (200, 200)] (by decide) (by decide)).1⟩

lemma masterFold_step (l : List ((slave → Rat) × GaugeVec))
    (acc : List Sample × List GaugeVec) :
    l.foldl (fun acc p =>
      let g1 := applySlaveSetter p.1 { slaves := [] } p.2
      (acc.1 ++ g1.collect, acc.2 ++ [g1])) acc =
    (acc.1 ++ (l.map fun p => p.2.collect).join, acc.2 ++ l.map fun p => p.2) := by
  induction l generalizing acc with
  | nil => simp
  | cons p rest ih =>
    simp only [List.foldl_cons]
    rw [ih]
    simp [applySlaveSetter, List.append_assoc]

lemma masterCollect_none_fresh (ms : masterCollectorState)
    (hg : ∀ g ∈ ms.gauges, g.children = [])
    (ha : ∀ c, ms.attrCounter = some c → c.values = []) :
    (masterCollect none ms).1 = [] := by
  have hjoin : (((masterMetricSetters.map fun p => p.2).zip ms.gauges).map
      fun p => p.2.collect).join = [] := by
    rw [List.join_eq_nil]
    intro x hx
    rcases List.mem_map.mp hx with ⟨p, hp, rfl⟩
    simp [GaugeVec.collect, hg p.2 (List.of_mem_zip hp).2]
  unfold masterCollect
  simp only [Option.getD_none]
  rw [masterFold_step]
  cases hms : ms.attrCounter with
  | none => simpa using hjoin
  | some c =>
    have hc := ha c hms
    simp [attributeTranslate, settableCounterVec.collect, hjoin, hc]

lemma applySets_spec (sets : List (Rat × List String)) (c : settableCounterVec) :
    applySets sets c =
      { c with values := c.values ++ sets.map fun s =>
          ({ descName := c.descName, labelValues := s.2, value := s.1 } : Sample) } := by
  induction sets generalizing c with
  | nil => simp [applySets]
  | cons s rest ih =>
    simp only [applySets, List.foldl_cons] at ih ⊢
    rw [ih]
    simp [settableCounterVec.set]

lemma attributeTranslate_length (al : List String) (sl : List slave)
    (c : settableCounterVec) :
    (sl.foldl (fun c s => c.set 1 (slaveAttributeLabelValues al s)) c).values.length =
      c.values.length + sl.length := by
  induction sl generalizing c with
  | nil => simp
  | cons s rest ih =>
    simp only [List.foldl_cons]
    rw [ih]
    simp [settableCounterVec.set]
    omega

lemma mapGet_mapSet_same (m : List (String × String)) (k v : String) :
    mapGet (mapSet m k v) k = v := by
  induction m with
  | nil => simp [mapSet, mapGet]
  | cons p rest ih =>
    by_cases h : p.1 = k
    · simp [mapSet, h, mapGet]
    · simp [mapSet, h, mapGet, ih]

lemma mapGet_mapSet_other (m : List (String × String)) (k k' v : String)
    (h : k' ≠ k) :
    mapGet (mapSet m k v) k' = mapGet m k' := by
  have hkk : (k = k') = False := by
    simp only [eq_iff_iff, iff_false]
    exact fun he => h he.symm
  induction m with
  | nil => simp [mapSet, mapGet, hkk]
  | cons p rest ih =>
    by_cases hp : p.1 = k
    · simp [mapSet, hp, mapGet, hkk]
    · simp [mapSet, hp, mapGet, ih]

lemma mapGet_fold_preset_ne (ls : List String) (m : List (String × String))
    (l : String) (h : ∀ x ∈ ls, x ≠ l) :
    mapGet (ls.foldl (fun m label => mapSet m label "") m) l = mapGet m l := by
  induction ls generalizing m with
  | nil => rfl
  | cons x rest ih =>
    simp only [List.foldl_cons]
    rw [ih _ (fun y hy => h y (List.mem_cons_of_mem _ hy))]
    exact mapGet_mapSet_other _ _ _ _ (Ne.symm (h x (List.mem_cons_self x rest)))

lemma mapGet_fold_preset_mem (ls : List String) (m : List (String × String))
    (l : String) (hl : l ∈ ls) :
    mapGet (ls.foldl (fun m label => mapSet m label "") m) l = "" := by
  induction ls generalizing m with
  | nil => cases hl
  | cons x rest ih =>
    simp only [List.foldl_cons]
    by_cases hx : l ∈ rest
    · exact ih _ hx
    · have hxl : x = l := by
        rcases List.mem_cons.mp hl with h1 | h2
        · exact h1.symm
        · exact absurd h2 hx
      have hne : ∀ y ∈ rest, y ≠ l := fun y hy he => hx (he ▸ hy)
      rw [mapGet_fold_preset_ne rest _ l hne, hxl]
      exact mapGet_mapSet_same _ _ _

lemma mapGet_fold_attrs (attrs : List (String × String)) (nls : List String)
    (m : List (String × String)) (l : String)
    (h : ∀ kv ∈ attrs, ¬(normaliseLabel kv.1 = l ∧ (attributeString kv.2).isSome = true)) :
    mapGet (attrs.foldl (fun m kv =>
      let normalisedLabel := normaliseLabel kv.1
      if stringInSlice normalisedLabel nls then
        match attributeString kv.2 with
        | some attr => mapSet m normalisedLabel attr
        | none => m
      else m) m) l = mapGet m l := by
  induction attrs generalizing m with
  | nil => rfl
  | cons kv rest ih =>
    simp only [List.foldl_cons]
    have hkv := h kv (List.mem_cons_self kv rest)
    have hrest : ∀ kv ∈ rest, ¬(normaliseLabel kv.1 = l ∧ (attributeString kv.2).isSome = true) :=
      fun kv hk => h kv (List.mem_cons_of_mem _ hk)
    rw [ih _ hrest]
    by_cases hin : stringInSlice (normaliseLabel kv.1) nls = true
    · cases ha : attributeString kv.2 with
      | none => simp [hin, ha]
      | some a =>
        have hne : normaliseLabel kv.1 ≠ l := by
          intro he
          exact hkv ⟨he, by simp [ha]⟩
        simp only [hin, if_true, ha]
        exact mapGet_mapSet_other _ _ _ _ (Ne.symm hne)
    · simp [hin]

/-- C1 (code bug): in the numeric-map collector an extraction function whose
source key is absent is not logged, counted and skipped — the error branch
of `metricCollector.Collect` receives from a fresh channel that nothing ever
sends on, so the collect blocks forever at the first absent key: exactly the
functions before it emit their samples, every later sibling never runs, and
the loop completes without blocking (second component `false`) iff every
source key is present in the snapshot. -/
theorem c1_absent_key_blocks_collect (fns : List extractFn) (m : metricMap) :
    metricCollectGo fns m =
      ((fns.takeWhile fun f => (runExtractFn m f).isSome).filterMap (runExtractFn m),
       fns.any fun f => (runExtractFn m f).isNone) := by
  induction fns with
  | nil => simp [metricCollectGo]
  | cons f rest ih =>
    cases hf : runExtractFn m f with
    | none => simp [metricCollectGo, hf, List.takeWhile]
    | some smp => simp [metricCollectGo, hf, List.takeWhile, ih]

/-- C2 counterexample: after a successful scrape that recorded one slave, a
scrape whose fetch fails still emits samples for the master member — the
persistent gauge children from the earlier success are re-emitted — so a
member's fetch or decode failure does not yield zero samples for that cycle
when an earlier scrape succeeded. -/
theorem c2_stale_samples_counterexample :
    (masterCollect none
      (masterCollect (some { slaves := [exampleSlave] }) (newMasterState [])).2).1 ≠ [] := by
  decide

/-- C2 (amended): a member's fetch/decode failure contributes no freshly set
samples and leaves siblings unaffected, but not always zero samples: the
version member emits zero samples on every failed fetch; the master member
emits zero samples on a failed fetch only while its persistent gauges hold
no children (as before any successful scrape) — after an earlier successful
scrape, a failed scrape re-emits exactly the previously recorded gauge
samples and leaves the member's state unchanged; and the grouped collector's
output is the concatenation of each member's own contribution, so one
member's failure never changes the others'. -/
theorem c2_member_failure_degradation (ms : masterCollectorState)
    (hms : ms.attrCounter = none) :
    (∀ g : GaugeVec, versionCollect none g = ([], g)) ∧
    (∀ al : List String, (masterCollect none (newMasterState al)).1 = []) ∧
    ((masterCollect none ms).1 =
      (((masterMetricSetters.map fun p => p.2).zip ms.gauges).map
        fun p => p.2.collect).join ∧
     (masterCollect none ms).2.gauges =
      ((masterMetricSetters.map fun p => p.2).zip ms.gauges).map fun p => p.2) ∧
    (∀ fetchM ms' gv, (groupedMVCollect fetchM none ms' gv).1 = (masterCollect fetchM ms').1) ∧
    (∀ fetchM fetchV ms' gv, (groupedMVCollect fetchM fetchV ms' gv).1 =
      (masterCollect fetchM ms').1 ++ (versionCollect fetchV gv).1) := by
  refine ⟨fun g => rfl, ?_, ?_,
    fun fetchM ms' gv => by simp [groupedMVCollect, versionCollect],
    fun fetchM fetchV ms' gv => rfl⟩
  · intro al
    apply masterCollect_none_fresh
    · intro g hgm
      simp only [newMasterState] at hgm
      rcases List.mem_map.mp hgm with ⟨p, hp, rfl⟩
      rfl
    · intro c hc
      simp only [newMasterState] at hc
      by_cases h : al = []
      · simp [h] at hc
      · simp only [if_neg h, Option.some.injEq] at hc
        rw [← hc]
        rfl
  · unfold masterCollect
    simp only [Option.getD_none]
    rw [masterFold_step]
    rw [hms]
    simp

/-- C2 witness: the theorem applied to the master state reached after one
successful scrape of a one-slave payload (whose attribute counter is absent,
the allowlist being empty). -/
theorem c2_member_failure_degradation_witness :
    ((masterCollect (some { slaves := [exampleSlave] }) (newMasterState [])).2.attrCounter
       = none) ∧
    ((∀ g : GaugeVec, versionCollect none g = ([], g)) ∧
     (∀ al : List String, (masterCollect none (newMasterState al)).1 = []) ∧
     ((masterCollect none
         (masterCollect (some { slaves := [exampleSlave] }) (newMasterState [])).2).1 =
       (((masterMetricSetters.map fun p => p.2).zip
           (masterCollect (some { slaves := [exampleSlave] })
             (newMasterState [])).2.gauges).map
         fun p => p.2.collect).join ∧
      (masterCollect none
         (masterCollect (some { slaves := [exampleSlave] }) (newMasterState [])).2).2.gauges =
       ((masterMetricSetters.map fun p => p.2).zip
           (masterCollect (some { slaves := [exampleSlave] })
             (newMasterState [])).2.gauges).map fun p => p.2) ∧
     (∀ fetchM ms' gv, (groupedMVCollect fetchM none ms' gv).1 = (masterCollect fetchM ms').1) ∧
     (∀ fetchM fetchV ms' gv, (groupedMVCollect fetchM fetchV ms' gv).1 =
       (masterCollect fetchM ms').1 ++ (versionCollect fetchV gv).1)) :=
  ⟨rfl, c2_member_failure_degradation _ rfl⟩

/-- C4 counterexample: the unkeyed single-value counter does not drain —
after one `Set 5` and one collect, a second collect without an intervening
`Set` emits one sample (the stored value again) rather than zero samples. -/
theorem c4_second_drain_counterexample :
    (((newSettableCounter "s" "n" "h").set 5).collect.2.2).collect.2.1 ≠
      ([] : List (Option Sample)) := by
  decide

/-- C4 (amended): the unkeyed variant does NOT follow the buffer/drain
discipline of the dynamic-label cache: a collect emits the stored value and
leaves the collector unchanged, so a second drain without an intervening
`Set` re-emits the same single sample instead of emitting zero samples. -/
theorem c4_settable_counter_not_drained (c : settableCounter) :
    c.collect.2.1 = [c.value] ∧ c.collect.2.2 = c ∧
      (c.collect.2.2).collect.2.1 = [c.value] := by
  cases h : c.value <;> simp [settableCounter.collect, h]

/-- C5: for every sequence of `Set` calls in one cycle on the dynamic-label
cache, a drain emits every buffered sample exactly once, in order, and
empties the buffer; a second drain without an intervening `Set` emits zero
samples. -/
theorem c5_vec_drain_exactly_once (c : settableCounterVec)
    (sets : List (Rat × List String)) :
    (applySets sets c).collect.1 =
      c.values ++ sets.map (fun s =>
        ({ descName := c.descName, labelValues := s.2, value := s.1 } : Sample)) ∧
    (applySets sets c).collect.2.values = [] ∧
    ((applySets sets c).collect.2).collect.1 = [] := by
  rw [applySets_spec]
  simp [settableCounterVec.collect]

/-- C7 counterexample: the attribute value `a-b` contains a hyphen, which is
outside the claim's charset of word characters, `/` and `.`, yet
`attributeString` keeps the value instead of rejecting it. -/
theorem c7_hyphen_counterexample :
    attributeString "a-b" = some "a-b" ∧ specAttrCharset '-' = false := by
  constructor
  · decide
  · decide

/-- C7 (amended): `attributeString` strips wrapping quote characters and
keeps the value iff every remaining character is a word character, the path
separator `/`, the dot `.` or additionally the hyphen `-`; the spec's two
examples hold, and a rejected value never aborts the node's sample — the
attribute translator still performs exactly one `Set` per slave node. -/
theorem c7_attribute_charset (s : String) :
    ((attributeString s).isSome = true ↔
      ∀ ch ∈ (trimQuotes s).data,
        (isWordCharGo ch || ch = '/' || ch = '.' || ch = '-') = true) ∧
    (∀ v, attributeString s = some v → v = trimQuotes s) ∧
    attributeString "\"abc/def.gh\"" = some "abc/def.gh" ∧
    attributeString "\"a b\"" = none ∧
    (∀ al st c, (attributeTranslate al st c).values.length =
      c.values.length + st.slaves.length) := by
  have hall : (trimQuotes s).data.all attrCharOk = true ↔
      ∀ ch ∈ (trimQuotes s).data,
        (isWordCharGo ch || ch = '/' || ch = '.' || ch = '-') = true := by
    rw [List.all_eq_true]
    constructor <;> intro hh ch hch <;> have hc := hh ch hch <;> revert hc <;>
      simp [attrCharOk] <;> tauto
  refine ⟨?_, ?_, by decide, by decide,
    fun al st c => attributeTranslate_length al st.slaves c⟩
  · rw [← hall]
    unfold attributeString
    by_cases h : (trimQuotes s).data.all attrCharOk
    · simp [h]
    · simp [h]
  · intro v hv
    unfold attributeString at hv
    by_cases h : (trimQuotes s).data.all attrCharOk
    · simp [h] at hv
      exact hv.symm
    · simp [h] at hv

/-- C8: the attribute sample of every node carries exactly one label value
per configured label name — the four base labels followed by the normalised
allowlist, in configured order — and a configured attribute label for which
the node has no attribute with that normalised key and an accepted value
carries the empty string. -/
theorem c8_attribute_sample_labels (allowlist : List String) (s : slave)
    (hne : allowlist ≠ []) :
    (slaveAttributeLabelValues allowlist s).length =
      (slaveAttributesLabelsExport (normaliseLabelList allowlist)).length ∧
    slaveAttributeLabelValues allowlist s =
      (slaveAttributesLabelsExport (normaliseLabelList allowlist)).map
        (mapGet (slaveAttributesExport (normaliseLabelList allowlist) s)) ∧
    (∀ l ∈ normaliseLabelList allowlist,
      (∀ kv ∈ s.attributes,
        ¬(normaliseLabel kv.1 = l ∧ (attributeString kv.2).isSome = true)) →
      mapGet (slaveAttributesExport (normaliseLabelList allowlist) s) l = "") := by
  refine ⟨?_, rfl, ?_⟩
  · simp [slaveAttributeLabelValues, getLabelValuesFromMap, slaveAttributesLabelsExport]
  · intro l hl hnone
    show mapGet (slaveAttributesExport (normaliseLabelList allowlist) s) l = ""
    unfold slaveAttributesExport
    exact (mapGet_fold_attrs s.attributes (normaliseLabelList allowlist) _ l hnone).trans
      (mapGet_fold_preset_mem (normaliseLabelList allowlist) _ l hl)

/-- C8 witness: the theorem applied to allowlist `["rack"]` and a node that
has a `zone` attribute but no `rack` attribute. -/
theorem c8_attribute_sample_labels_witness :
    (["rack"] : List String) ≠ [] ∧
    ((slaveAttributeLabelValues ["rack"] witnessSlave).length =
      (slaveAttributesLabelsExport (normaliseLabelList ["rack"])).length ∧
    slaveAttributeLabelValues ["rack"] witnessSlave =
      (slaveAttributesLabelsExport (normaliseLabelList ["rack"])).map
        (mapGet (slaveAttributesExport (normaliseLabelList ["rack"]) witnessSlave)) ∧
    (∀ l ∈ normaliseLabelList ["rack"],
      (∀ kv ∈ witnessSlave.attributes,
        ¬(normaliseLabel kv.1 = l ∧ (attributeString kv.2).isSome = true)) →
      mapGet (slaveAttributesExport (normaliseLabelList ["rack"]) witnessSlave) l = "")) :=
  ⟨by decide, c8_attribute_sample_labels ["rack"] witnessSlave (by decide)⟩

/-- C9: when a refresh runs (`now` past the stored expiry) and the chain
fails after the signing step (request construction, network, or
response-decode failure), `authToken` returns the empty string and the
stored token is unchanged, but the stored expiry has already been advanced
to `now + 1h` by the signing step; hence every later call within that hour
skips the refresh and returns the previously stored stale token instead of
retrying — the auth state is not left unchanged on error. -/
theorem c9_failed_refresh_keeps_stale_token (st : authInfo) (now : Int)
    (signOk : Option String) (h : now > st.tokenExpire) :
    (authToken now signOk none st).1 = "" ∧
    (authToken now signOk none st).2.token = st.token ∧
    (authToken now signOk none st).2.tokenExpire = now + 3600 ∧
    (∀ now' : Int, now' ≤ now + 3600 → ∀ s2 p2 : Option String,
      authToken now' s2 p2 (authToken now signOk none st).2 =
        (st.token, (authToken now signOk none st).2)) := by
  have hst : (authToken now signOk none st).2 = { st with tokenExpire := now + 3600 } := by
    unfold authToken signingToken
    cases signOk <;> simp [h]
  refine ⟨?_, ?_, ?_, ?_⟩
  · unfold authToken signingToken
    cases signOk <;> simp [h]
  · rw [hst]
  · rw [hst]
  · intro now' h' s2 p2
    rw [hst]
    unfold authToken
    rw [if_neg (by simp only []; omega)]

/-- C9 witness: a concrete expired auth state whose refresh fails after the
signing step. -/
theorem c9_failed_refresh_keeps_stale_token_witness :
    ((1 : Int) > expiredAuth.tokenExpire) ∧
    ((authToken 1 none none expiredAuth).1 = "" ∧
     (authToken 1 none none expiredAuth).2.token = expiredAuth.token ∧
     (authToken 1 none none expiredAuth).2.tokenExpire = 1 + 3600 ∧
     (∀ now' : Int, now' ≤ 1 + 3600 → ∀ s2 p2 : Option String,
       authToken now' s2 p2 (authToken 1 none none expiredAuth).2 =
         (expiredAuth.token, (authToken 1 none none expiredAuth).2))) :=
  ⟨by decide, c9_failed_refresh_keeps_stale_token expiredAuth 1 none (by decide)⟩

/-- C10: draining the unkeyed single-value counter before any `Set` logs
the nil-value warning but still sends exactly one (nil) metric value on the
output channel instead of emitting nothing. -/
theorem c10_unset_counter_emits_nil (subsystem name help : String) :
    (newSettableCounter subsystem name help).collect =
      (["NIL value"], [none], newSettableCounter subsystem name help) := rfl

end MesosExporter
